import Mathlib

/-
Verification development for the code understanding tool
(src/code-understanding/scripts/code_analyzer.py).

The Python program is shallowly embedded: each Python function is
translated to a computable Lean definition over explicit data
(file contents are byte lists, directory trees are an inductive type,
fallible operations return Except values).  Strings are Lean strings,
whose characters correspond to Python code points, so Python len(s)
corresponds to String.length.
-/

namespace CodeAnalyzer

/-! ## Python string primitives used by the program -/

/-- Single-quote character, written via its code point. -/
def sq : Char := Char.ofNat 39

/-- Models the set of whitespace characters recognized by Python
str.strip() and by the regex class backslash-s (Unicode mode):
ASCII whitespace, the C1 separators, NEL, NBSP and the Unicode
space separators. -/
def isPySpace (c : Char) : Bool :=
  let n := c.toNat
  n = 32 || (9 ≤ n && n ≤ 13) || (28 ≤ n && n ≤ 31) || n = 133 || n = 160 ||
  n = 5760 || (8192 ≤ n && n ≤ 8202) || n = 8232 || n = 8233 ||
  n = 8239 || n = 8287 || n = 12288

/-- Line-break characters of Python str.splitlines other than
carriage return (which is handled separately to merge CRLF). -/
def isPyLineBreak (c : Char) : Bool :=
  let n := c.toNat
  n = 10 || n = 11 || n = 12 || n = 28 || n = 29 || n = 30 ||
  n = 133 || n = 8232 || n = 8233

/-- Accumulating worker for pySplitlines: acc holds the current line
reversed.  A trailing line is emitted only when non-empty, matching
Python str.splitlines. -/
def splitlinesAux : List Char → List Char → List String
  | [], acc => if acc.isEmpty then [] else [String.mk acc.reverse]
  | '\r' :: '\n' :: rest, acc => String.mk acc.reverse :: splitlinesAux rest []
  | '\r' :: rest, acc => String.mk acc.reverse :: splitlinesAux rest []
  | c :: rest, acc =>
    if isPyLineBreak c then String.mk acc.reverse :: splitlinesAux rest []
    else splitlinesAux rest (c :: acc)

/-- Models Python str.splitlines(). -/
def pySplitlines (s : String) : List String := splitlinesAux s.data []

/-- Models Python str.strip() on a character list. -/
def pyStripList (l : List Char) : List Char :=
  ((l.dropWhile isPySpace).reverse.dropWhile isPySpace).reverse

/-- Models Python str.strip(). -/
def pyStrip (s : String) : String := String.mk (pyStripList s.data)

/-- Models Python str.startswith via the character list. -/
def strStartsWith (s pre : String) : Bool := pre.data.isPrefixOf s.data

/-- Models Python str.lower() (Lean Char.toLower covers the ASCII
letters, the only case relevant to the extension table). -/
def strLower (s : String) : String := String.mk (s.data.map Char.toLower)

/-- Substring test on character lists: models the Python expression
pat in s. -/
def containsSub (pat : List Char) : List Char → Bool
  | [] => pat.isEmpty
  | c :: rest => pat.isPrefixOf (c :: rest) || containsSub pat rest

/-- Split a character list at newline characters only; the resulting
segments are exactly the spans at which the regex anchor circumflex
matches in re.MULTILINE mode. -/
def splitNlAux : List Char → List Char → List (List Char)
  | [], acc => [acc.reverse]
  | c :: rest, acc =>
    if c = '\n' then acc.reverse :: splitNlAux rest []
    else splitNlAux rest (c :: acc)

/-- Lines of a character list for multiline regex matching. -/
def splitNl (l : List Char) : List (List Char) := splitNlAux l []

/-- Models pathlib PurePath.suffix: the part of the name from the last
dot on, provided that dot is neither the first nor the last character
of the name; otherwise the empty string. -/
def pySuffix (name : String) : String :=
  let cs := name.data
  match cs.reverse.findIdx? (fun c => c = '.') with
  | none => ""
  | some j =>
    let i := cs.length - 1 - j
    if 0 < i ∧ i + 1 < cs.length then String.mk (cs.drop i) else ""

/-- Models pathlib PurePath.stem: the name with its suffix removed. -/
def pyStem (name : String) : String :=
  String.mk (name.data.take (name.length - (pySuffix name).length))

/-! ## Python sorted(): a stable insertion sort

Python sorted(xs, key=k) is a stable comparison sort.  It is modeled
by an insertion sort that inserts each element after every already
placed element le-below-or-equal to it, which yields exactly the
stable ascending order; sorted(..., reverse=True) is modeled by
flipping the boolean comparison, which preserves stability exactly as
CPython does. -/

/-- Insert x after every prefix element y with le y x. -/
def pyInsert (le : α → α → Bool) (x : α) : List α → List α
  | [] => [x]
  | y :: ys => if le y x then y :: pyInsert le x ys else x :: y :: ys

/-- Stable sort modeling Python sorted with a boolean comparison. -/
def pySortedBy (le : α → α → Bool) (l : List α) : List α :=
  l.foldl (fun acc x => pyInsert le x acc) []

theorem mem_pyInsert {le : α → α → Bool} {x a : α} {l : List α} :
    a ∈ pyInsert le x l ↔ a = x ∨ a ∈ l := by
  induction l with
  | nil => simp [pyInsert]
  | cons y ys ih =>
    by_cases h : le y x = true
    · rw [show pyInsert le x (y :: ys) = y :: pyInsert le x ys by
        simp [pyInsert, h]]
      simp only [List.mem_cons, ih]
      tauto
    · rw [show pyInsert le x (y :: ys) = x :: y :: ys by simp [pyInsert, h]]
      simp only [List.mem_cons]

theorem pyInsert_perm (le : α → α → Bool) (x : α) (l : List α) :
    (pyInsert le x l).Perm (x :: l) := by
  induction l with
  | nil => simp [pyInsert]
  | cons y ys ih =>
    by_cases h : le y x = true
    · simp only [pyInsert, h, if_pos]
      exact (ih.cons y).trans (List.Perm.swap x y ys)
    · simp [pyInsert, h]

theorem pySortedBy_foldl_perm (le : α → α → Bool) :
    ∀ (l acc : List α),
      (l.foldl (fun acc x => pyInsert le x acc) acc).Perm (acc ++ l) := by
  intro l
  induction l with
  | nil => intro acc; simp
  | cons x xs ih =>
    intro acc
    have h1 := ih (pyInsert le x acc)
    have h2 : (pyInsert le x acc ++ xs).Perm (acc ++ x :: xs) := by
      have hx : (pyInsert le x acc).Perm (x :: acc) := pyInsert_perm le x acc
      have hstep : (pyInsert le x acc ++ xs).Perm ((x :: acc) ++ xs) :=
        hx.append_right xs
      have hmid : (x :: (acc ++ xs)).Perm (acc ++ x :: xs) :=
        List.perm_middle.symm
      exact hstep.trans hmid
    exact (List.foldl_cons _ _ ▸ h1).trans h2

theorem pySortedBy_perm (le : α → α → Bool) (l : List α) :
    (pySortedBy le l).Perm l := by
  simpa [pySortedBy] using pySortedBy_foldl_perm le l []

theorem pyInsert_pairwise {le : α → α → Bool}
    (htot : ∀ a b, le a b = true ∨ le b a = true)
    (htr : ∀ a b c, le a b = true → le b c = true → le a c = true)
    {x : α} {l : List α} (h : l.Pairwise (fun a b => le a b = true)) :
    (pyInsert le x l).Pairwise (fun a b => le a b = true) := by
  induction l with
  | nil => simp [pyInsert]
  | cons y ys ih =>
    rcases List.pairwise_cons.mp h with ⟨hy, hys⟩
    by_cases hle : le y x = true
    · simp only [pyInsert, hle, if_pos]
      refine List.pairwise_cons.mpr ⟨?_, ih hys⟩
      intro z hz
      rcases mem_pyInsert.mp hz with rfl | hz'
      · exact hle
      · exact hy z hz'
    · simp only [pyInsert, hle]
      rw [if_neg (by simp [hle])]
      refine List.pairwise_cons.mpr ⟨?_, h⟩
      intro z hz
      rcases List.mem_cons.mp hz with rfl | hz'
      · rcases htot z x with h1 | h1
        · exact absurd h1 hle
        · exact h1
      · rcases htot x z with h1 | h1
        · exact h1
        · rcases htot y x with h2 | h2
          · exact absurd h2 hle
          · exact htr x y z h2 (hy z hz')

theorem pySortedBy_pairwise {le : α → α → Bool}
    (htot : ∀ a b, le a b = true ∨ le b a = true)
    (htr : ∀ a b c, le a b = true → le b c = true → le a c = true)
    (l : List α) :
    (pySortedBy le l).Pairwise (fun a b => le a b = true) := by
  have main : ∀ (l acc : List α),
      acc.Pairwise (fun a b => le a b = true) →
      (l.foldl (fun acc x => pyInsert le x acc) acc).Pairwise
        (fun a b => le a b = true) := by
    intro l
    induction l with
    | nil => intro acc hacc; simpa using hacc
    | cons x xs ih =>
      intro acc hacc
      exact ih (pyInsert le x acc) (pyInsert_pairwise htot htr hacc)
  exact main l [] List.Pairwise.nil

theorem filter_pyInsert_pos {le : α → α → Bool} {p : α → Bool} {x : α}
    (htr : ∀ a b c, le a b = true → le b c = true → le a c = true)
    (hpx : p x = true)
    (hdown : ∀ y, le y x = false → p y = false) :
    ∀ {l : List α}, l.Pairwise (fun a b => le a b = true) →
      (pyInsert le x l).filter p = l.filter p ++ [x] := by
  intro l
  induction l with
  | nil => intro _; simp [pyInsert, hpx]
  | cons y ys ih =>
    intro h
    rcases List.pairwise_cons.mp h with ⟨hy, hys⟩
    by_cases hle : le y x = true
    · rw [show pyInsert le x (y :: ys) = y :: pyInsert le x ys by
        simp [pyInsert, hle]]
      by_cases hpy : p y = true
      · simp [List.filter_cons, hpy, ih hys]
      · simp only [Bool.not_eq_true] at hpy
        simp [List.filter_cons, hpy, ih hys]
    · rw [show pyInsert le x (y :: ys) = x :: y :: ys by simp [pyInsert, hle]]
      have hley : le y x = false := by
        cases hxy : le y x with
        | false => rfl
        | true => exact absurd hxy hle
      have hpy : p y = false := hdown y hley
      have hzs : ∀ z ∈ ys, p z = false := by
        intro z hz
        have hyz : le y z = true := hy z hz
        have hzx : le z x = false := by
          cases hzx : le z x with
          | false => rfl
          | true => exact absurd (htr y z x hyz hzx) hle
        exact hdown z hzx
      have hfilter : List.filter p (y :: ys) = [] := by
        rw [List.filter_eq_nil_iff]
        intro z hz
        rcases List.mem_cons.mp hz with rfl | hz'
        · simp [hpy]
        · simp [hzs z hz']
      simp [List.filter_cons, hpx, hfilter]

theorem filter_pyInsert_neg {le : α → α → Bool} {p : α → Bool} {x : α}
    (hpx : p x = false) (l : List α) :
    (pyInsert le x l).filter p = l.filter p := by
  induction l with
  | nil => simp [pyInsert, hpx]
  | cons y ys ih =>
    by_cases hle : le y x = true
    · rw [show pyInsert le x (y :: ys) = y :: pyInsert le x ys by
        simp [pyInsert, hle]]
      simp [List.filter_cons, ih]
    · rw [show pyInsert le x (y :: ys) = x :: y :: ys by simp [pyInsert, hle]]
      simp [List.filter_cons, hpx]

/-- Stability of the model of Python sorted: the elements selected by
a predicate that is downward-closed under the comparison (for example
elements with one fixed sort key) appear in the sorted output in the
same order as in the input. -/
theorem filter_pySortedBy {le : α → α → Bool} {p : α → Bool}
    (htot : ∀ a b, le a b = true ∨ le b a = true)
    (htr : ∀ a b c, le a b = true → le b c = true → le a c = true)
    (hdown : ∀ x y, p x = true → le y x = false → p y = false)
    (l : List α) :
    (pySortedBy le l).filter p = l.filter p := by
  have main : ∀ (l acc : List α),
      acc.Pairwise (fun a b => le a b = true) →
      (l.foldl (fun acc x => pyInsert le x acc) acc).filter p =
        acc.filter p ++ l.filter p := by
    intro l
    induction l with
    | nil => intro acc _; simp
    | cons x xs ih =>
      intro acc hacc
      rw [List.foldl_cons]
      rw [ih (pyInsert le x acc) (pyInsert_pairwise htot htr hacc)]
      by_cases hpx : p x = true
      · rw [filter_pyInsert_pos htr hpx (fun y hy => hdown x y hpx hy) hacc]
        simp [List.filter_cons, hpx, List.append_assoc]
      · simp only [Bool.not_eq_true] at hpx
        rw [filter_pyInsert_neg hpx]
        simp [List.filter_cons, hpx]
  simpa [pySortedBy] using main l []

/-! ## Permissive text decoding

Models opening a file with encoding utf-8 and errors ignore: a total
function from raw bytes to text that silently skips undecodable
bytes, so decoding can never fail. -/

/-- Continuation byte test (10xxxxxx). -/
def isCont (b : Nat) : Bool := 128 ≤ b && b ≤ 191

/-- Valid second byte for a three-byte sequence led by b (excluding
overlong forms and surrogates, as the UTF-8 decoder does). -/
def cont3ok (b b2 : Nat) : Bool :=
  if b = 224 then 160 ≤ b2 && b2 ≤ 191
  else if b = 237 then 128 ≤ b2 && b2 ≤ 159
  else isCont b2

/-- Valid second byte for a four-byte sequence led by b. -/
def cont4ok (b b2 : Nat) : Bool :=
  if b = 240 then 144 ≤ b2 && b2 ≤ 191
  else if b = 244 then 128 ≤ b2 && b2 ≤ 143
  else isCont b2

/-- Fuel-indexed UTF-8 decoder that skips invalid bytes; the fuel is
instantiated with the byte count, which always suffices because every
step consumes at least one byte. -/
def utf8Aux : Nat → List Nat → List Char
  | 0, _ => []
  | _ + 1, [] => []
  | fuel + 1, b :: rest =>
    if b < 128 then Char.ofNat b :: utf8Aux fuel rest
    else if 194 ≤ b && b ≤ 223 then
      match rest with
      | b2 :: rest2 =>
        if isCont b2 then
          Char.ofNat ((b - 192) * 64 + (b2 - 128)) :: utf8Aux fuel rest2
        else utf8Aux fuel rest
      | [] => utf8Aux fuel rest
    else if 224 ≤ b && b ≤ 239 then
      match rest with
      | b2 :: b3 :: rest3 =>
        if cont3ok b b2 && isCont b3 then
          Char.ofNat ((b - 224) * 4096 + (b2 - 128) * 64 + (b3 - 128)) ::
            utf8Aux fuel rest3
        else utf8Aux fuel rest
      | _ => utf8Aux fuel rest
    else if 240 ≤ b && b ≤ 244 then
      match rest with
      | b2 :: b3 :: b4 :: rest4 =>
        if cont4ok b b2 && isCont b3 && isCont b4 then
          Char.ofNat ((b - 240) * 262144 + (b2 - 128) * 4096 +
            (b3 - 128) * 64 + (b4 - 128)) :: utf8Aux fuel rest4
        else utf8Aux fuel rest
      | _ => utf8Aux fuel rest
    else utf8Aux fuel rest

/-- Total permissive decode of raw bytes to text. -/
def decodeUtf8Ignore (bs : List Nat) : String :=
  String.mk (utf8Aux bs.length bs)

/-! ## Regex scanners

The program extracts names with re.findall over a handful of fixed
patterns.  Each pattern is embedded as a hand-written matcher on
character lists that mirrors the pattern including its greedy and
backtracking behavior; findall is the usual non-overlapping
left-to-right scan.  The regex classes backslash-w and backslash-s
are modeled by isWordChar and isPySpace (ASCII scope for word
characters). -/

/-- Word character (regex class backslash-w, ASCII scope plus
underscore). -/
def isWordChar (c : Char) : Bool := c.isAlphanum || c = '_'

/-- Drop a possibly empty run of whitespace (backslash-s star). -/
def dropSpaces (l : List Char) : List Char := l.dropWhile isPySpace

/-- Require at least one whitespace character, then drop the whole
run (backslash-s plus). -/
def takeSpaces1 (l : List Char) : Option (List Char) :=
  match l with
  | c :: rest => if isPySpace c then some (dropSpaces rest) else none
  | [] => none

/-- Capture a maximal nonempty word (backslash-w plus, greedy). -/
def takeWord1 (l : List Char) : Option (String × List Char) :=
  let w := l.takeWhile isWordChar
  if w.isEmpty then none else some (String.mk w, l.drop w.length)

/-- Capture a maximal nonempty run of non-whitespace (backslash-S
plus, greedy). -/
def takeNonSpace1 (l : List Char) : Option (String × List Char) :=
  let w := l.takeWhile (fun c => !isPySpace c)
  if w.isEmpty then none else some (String.mk w, l.drop w.length)

/-- Match a literal string at the head of the input. -/
def stripLitS (s : String) (l : List Char) : Option (List Char) :=
  if s.data.isPrefixOf l then some (l.drop s.data.length) else none

/-- Left-to-right non-overlapping scan: apply the matcher at each
position, emit the capture and resume after the match on success,
advance one character on failure.  Every matcher used below consumes
at least one character, so fuel equal to the input length suffices. -/
def scanAll (m : List Char → Option (String × List Char)) :
    Nat → List Char → List String
  | 0, _ => []
  | _ + 1, [] => []
  | fuel + 1, c :: rest =>
    match m (c :: rest) with
    | some (w, l') => w :: scanAll m fuel l'
    | none => scanAll m fuel rest

/-- re.findall for a single-capture pattern without anchors. -/
def findall (m : List Char → Option (String × List Char))
    (content : String) : List String :=
  scanAll m content.data.length content.data

/-- Matcher for the pattern def backslash-s plus capture-word
backslash-s star open-paren. -/
def matchPyDef (l : List Char) : Option (String × List Char) := do
  let l ← stripLitS "def" l
  let l ← takeSpaces1 l
  let (w, l) ← takeWord1 l
  let l := dropSpaces l
  let l ← stripLitS "(" l
  pure (w, l)

/-- Matcher for the pattern class backslash-s plus capture-word,
shared by the python and javascript class scans. -/
def matchClassKw (l : List Char) : Option (String × List Char) := do
  let l ← stripLitS "class" l
  let l ← takeSpaces1 l
  let (w, l) ← takeWord1 l
  pure (w, l)

/-- Per-line matcher for the multiline-anchored python import pattern:
from-or-import keyword, whitespace, captured non-space token. -/
def matchPyImport (l : List Char) : Option String :=
  let afterKw : List Char → Option String := fun l => do
    let l ← takeSpaces1 l
    let (w, _) ← takeNonSpace1 l
    pure w
  match (do afterKw (← stripLitS "from" l) : Option String) with
  | some w => some w
  | none => do afterKw (← stripLitS "import" l)

/-- Python structural extraction (analyze_python_file): functions,
classes and imports, each truncated to the first ten matches. -/
def analyze_python_file (content : String) :
    List String × List String × List String :=
  ((findall matchPyDef content).take 10,
   (findall matchClassKw content).take 10,
   (((splitNl content.data).filterMap matchPyImport).take 10))

/-- Matcher for the javascript function pattern, an alternation of
function backslash-s plus capture-word, and const backslash-s plus
capture-word backslash-s star equals backslash-s star optional
async-blank open-paren.  The python list comprehension that keeps the
nonempty capture of each tuple is the identity here, because every
match has exactly one nonempty group. -/
def matchJsFunc (l : List Char) : Option (String × List Char) :=
  match (do
      let l ← stripLitS "function" l
      let l ← takeSpaces1 l
      let (w, l) ← takeWord1 l
      pure (w, l) : Option (String × List Char)) with
  | some r => some r
  | none => do
    let l ← stripLitS "const" l
    let l ← takeSpaces1 l
    let (w, l) ← takeWord1 l
    let l := dropSpaces l
    let l ← stripLitS "=" l
    let l := dropSpaces l
    match (do
        let l2 ← stripLitS "async" l
        let l2 ← takeSpaces1 l2
        let l2 ← stripLitS "(" l2
        pure l2 : Option (List Char)) with
    | some l2 => pure (w, l2)
    | none => do
      let l2 ← stripLitS "(" l
      pure (w, l2)

/-- Quote characters accepted by the import patterns. -/
def isQuoteChar (c : Char) : Bool := c = '"' || c = sq

/-- Consume one quote character. -/
def takeQuote (l : List Char) : Option (List Char) :=
  match l with
  | c :: rest => if isQuoteChar c then some rest else none
  | [] => none

/-- Greedy backtracking for capture-nonspace-plus followed by a quote:
the nonspace run is split at its last quote character (the capture
must be nonempty).  Returns the capture and the characters after the
closing quote. -/
def splitAtLastQuote (l : List Char) : Option (String × List Char) :=
  let run := l.takeWhile (fun c => !isPySpace c)
  match run.reverse.findIdx? isQuoteChar with
  | none => none
  | some j =>
    let k := run.length - 1 - j
    if 0 < k then some (String.mk (run.take k), l.drop (k + 1)) else none

/-- Rightmost-match search over the suffixes of a line, modeling a
greedy dot-star before the given tail pattern. -/
def lastMatchAux (m : List Char → Option String) :
    List Char → Option String → Option String
  | [], best => best
  | c :: rest, best =>
    lastMatchAux m rest
      (match m (c :: rest) with
       | some w => some w
       | none => best)

/-- Greedy dot-star then tail pattern: the match from the last viable
start position wins. -/
def lastMatch (m : List Char → Option String) (l : List Char) :
    Option String := lastMatchAux m l none

/-- Tail pattern from backslash-s plus quote capture-nonspace-plus
quote of the first javascript import alternative. -/
def jsImportTail1 (l : List Char) : Option String := do
  let l ← stripLitS "from" l
  let l ← takeSpaces1 l
  let l ← takeQuote l
  let (w, _) ← splitAtLastQuote l
  pure w

/-- Variant of splitAtLastQuote for a closing quote that must be
followed immediately by a closing parenthesis. -/
def splitAtLastQuoteParen (l : List Char) : Option (String × List Char) :=
  let run := l.takeWhile (fun c => !isPySpace c)
  let good : Nat → Bool := fun k =>
    match run.get? k, run.get? (k + 1) with
    | some c, some c2 => isQuoteChar c && c2 = ')'
    | _, _ => false
  match ((List.range run.length).filter good).getLast? with
  | none => none
  | some k => if 0 < k then some (String.mk (run.take k), l.drop (k + 2)) else none

/-- Tail pattern equals backslash-s star require open-paren quote
capture-nonspace-plus quote close-paren of the second alternative of
the javascript module-import pattern. -/
def jsImportTail2 (l : List Char) : Option String := do
  let l ← stripLitS "=" l
  let l := dropSpaces l
  let l ← stripLitS "require(" l
  let l ← takeQuote l
  let (w, _) ← splitAtLastQuoteParen l
  pure w

/-- Per-line matcher for the multiline-anchored javascript import
pattern: import dot-star from quote capture quote, or const
backslash-s plus dot-star equals backslash-s star require of a quoted
capture. -/
def matchJsImport (l : List Char) : Option String :=
  match (do lastMatch jsImportTail1 (← stripLitS "import" l) : Option String) with
  | some w => some w
  | none => do
    let l1 ← stripLitS "const" l
    let l1 ← takeSpaces1 l1
    lastMatch jsImportTail2 l1

/-- Javascript and typescript structural extraction
(analyze_js_file). -/
def analyze_js_file (content : String) :
    List String × List String × List String :=
  ((findall matchJsFunc content).take 10,
   (findall matchClassKw content).take 10,
   (((splitNl content.data).filterMap matchJsImport).take 10))

/-- Matcher for the java class pattern: optional public-blank, then
class backslash-s plus capture-word. -/
def matchJavaClass (l : List Char) : Option (String × List Char) :=
  match (do
      let l1 ← stripLitS "public" l
      let l1 ← takeSpaces1 l1
      matchClassKw l1 : Option (String × List Char)) with
  | some r => some r
  | none => matchClassKw l

/-- Shared tail of the java method pattern: return-type word,
whitespace, captured name, optional whitespace, open-paren. -/
def javaMethodTail (l : List Char) : Option (String × List Char) := do
  let (_, l) ← takeWord1 l
  let l ← takeSpaces1 l
  let (nm, l) ← takeWord1 l
  let l := dropSpaces l
  let l ← stripLitS "(" l
  pure (nm, l)

/-- Core of the java method pattern after the optional access
modifier: backslash-s star, optional static, backslash-s star, then
the tail; the optional static is greedy with backtracking. -/
def javaMethodCore (l : List Char) : Option (String × List Char) :=
  let l := dropSpaces l
  match (do
      let l2 ← stripLitS "static" l
      javaMethodTail (dropSpaces l2) : Option (String × List Char)) with
  | some r => some r
  | none => javaMethodTail (dropSpaces l)

/-- Matcher for the java method pattern: optional access modifier
(public, private or protected, tried in that order, then the empty
alternative), then the core; the whitespace after the modifier is
optional (backslash-s star) and belongs to the core. -/
def matchJavaMethod (l : List Char) : Option (String × List Char) :=
  match (do javaMethodCore (← stripLitS "public" l) : Option (String × List Char)) with
  | some r => some r
  | none =>
    match (do javaMethodCore (← stripLitS "private" l) : Option (String × List Char)) with
    | some r => some r
    | none =>
      match (do javaMethodCore (← stripLitS "protected" l) : Option (String × List Char)) with
      | some r => some r
      | none => javaMethodCore l

/-- Matcher for the java import pattern: import, whitespace, a run of
word or dot characters, an immediate semicolon. -/
def matchJavaImport (l : List Char) : Option (String × List Char) := do
  let l ← stripLitS "import" l
  let l ← takeSpaces1 l
  let run := l.takeWhile (fun c => isWordChar c || c = '.')
  if run.isEmpty then none else
    match stripLitS ";" (l.drop run.length) with
    | some rest => pure (String.mk run, rest)
    | none => none

/-- Java structural extraction (analyze_java_file): the returned
triple is functions, classes, imports in that order. -/
def analyze_java_file (content : String) :
    List String × List String × List String :=
  ((findall matchJavaMethod content).take 10,
   (findall matchJavaClass content).take 10,
   (findall matchJavaImport content).take 10)

/-! ## Language classifier and binary detector -/

/-- The fixed suffix table of CodeAnalyzer (supported_extensions). -/
def supported_extensions : List (String × String) :=
  [(".py", "python"),
   (".js", "javascript"), (".ts", "typescript"),
   (".jsx", "react"), (".tsx", "react"),
   (".java", "java"), (".cpp", "cpp"), (".c", "c"), (".cs", "csharp"),
   (".go", "go"), (".rs", "rust"), (".php", "php"), (".rb", "ruby"),
   (".swift", "swift"), (".kt", "kotlin"), (".scala", "scala"),
   (".html", "html"), (".css", "css"), (".scss", "scss"), (".sass", "sass"),
   (".sql", "sql"), (".sh", "shell"), (".bash", "shell"),
   (".json", "json"), (".yaml", "yaml"), (".yml", "yaml"), (".xml", "xml"),
   (".md", "markdown"), (".txt", "text"), (".dockerfile", "docker")]

/-- Models CodeAnalyzer.get_file_language: look up the lowercased
file suffix, default "unknown". -/
def get_file_language (name : String) : String :=
  match supported_extensions.lookup (strLower (pySuffix name)) with
  | some lang => lang
  | none => "unknown"

/-- Models CodeAnalyzer.is_binary_file.  The argument is the outcome
of opening the file and reading its raw bytes; the function reads the
first 1024 bytes and tests for a zero byte, and the bare except
clause turns any read failure into true. -/
def is_binary_file (r : Except String (List Nat)) : Bool :=
  match r with
  | .error _ => true
  | .ok bs => (bs.take 1024).contains 0

/-! ## Description extraction -/

/-- Characters removed by the leading re.sub of the comment branch
(the class hash slash star backslash-s, anchored at the start). -/
def isCommentLead (c : Char) : Bool :=
  c = '#' || c = '/' || c = '*' || isPySpace c

/-- Characters removed everywhere by the re.sub of the docstring
branch (the class quote apostrophe backslash-s, unanchored). -/
def isQuoteSpace (c : Char) : Bool :=
  c = '"' || c = sq || isPySpace c

/-- Three double quotes. -/
def tripleDq : List Char := ['"', '"', '"']

/-- Three single quotes. -/
def tripleSq : List Char := [sq, sq, sq]

/-- The loop body of extract_description over the first twenty lines,
transcribed statement by statement: the comment test and the
docstring test are two independent if statements on the stripped
line, each returning only when its cleaned text has length strictly
between 10 and 200. -/
def descLoop (language : String) : List String → String
  | [] => language ++ "源代码文件"
  | l :: rest =>
    let line := pyStrip l
    let afterComment : Option String :=
      if strStartsWith line "#" || strStartsWith line "//" || strStartsWith line "/*" then
        let desc := pyStrip (String.mk (line.data.dropWhile isCommentLead))
        if 10 < desc.length ∧ desc.length < 200 then some desc else none
      else none
    match afterComment with
    | some d => d
    | none =>
      let afterDoc : Option String :=
        if containsSub tripleDq line.data || containsSub tripleSq line.data then
          let desc := pyStrip (String.mk (line.data.filter (fun c => !isQuoteSpace c)))
          if 10 < desc.length ∧ desc.length < 200 then some desc else none
        else none
      match afterDoc with
      | some d => d
      | none => descLoop language rest

/-- Models CodeAnalyzer.extract_description. -/
def extract_description (content language : String) : String :=
  descLoop language ((pySplitlines content).take 20)

/-- Modelled from the spec: the qualification-and-cleaning rule for a
single line, amended to what the code does — a stripped line
qualifies through the comment branch (leading run of hash, slash,
star and whitespace removed, then stripped) or else through the
docstring branch (every quote, apostrophe and whitespace character
removed anywhere in the line); a branch yields a description only
when the cleaned length is strictly between 10 and 200. -/
def spec_line_desc (l : String) : Option String :=
  let line := pyStrip l
  let viaComment : Option String :=
    if strStartsWith line "#" || strStartsWith line "//" || strStartsWith line "/*" then
      let d := pyStrip (String.mk (line.data.dropWhile isCommentLead))
      if 10 < d.length ∧ d.length < 200 then some d else none
    else none
  match viaComment with
  | some d => some d
  | none =>
    if containsSub tripleDq line.data || containsSub tripleSq line.data then
      let d := pyStrip (String.mk (line.data.filter (fun c => !isQuoteSpace c)))
      if 10 < d.length ∧ d.length < 200 then some d else none
    else none

/-- Modelled from the spec (amended): scan only the first twenty
lines; the first line yielding a description through spec_line_desc
provides it; otherwise the description is the language label followed
by the fixed suffix 源代码文件. -/
def spec_extract_description (content language : String) : String :=
  match ((pySplitlines content).take 20).findSome? spec_line_desc with
  | some d => d
  | none => language ++ "源代码文件"

/-! ## File analyzer -/

/-- The per-file record produced by analyze_file: the tagged variant
described by the data model (Binary, Source or Error). -/
inductive FileRecord where
  | binary (name : String) (size : Nat)
  | source (name : String) (language : String) (lines : Nat) (size : Nat)
      (functions : List String) (classes : List String)
      (imports : List String) (description : String)
  | err (name : String) (msg : String)

/-- The name field present on every record. -/
def recName : FileRecord → String
  | .binary n _ => n
  | .source n _ _ _ _ _ _ _ => n
  | .err n _ => n

/-- The type tag of a record (the python dict field type). -/
def recType : FileRecord → String
  | .binary _ _ => "binary"
  | .source _ _ _ _ _ _ _ _ => "source"
  | .err _ _ => "error"

/-- The language field as read by count_languages through dict.get
with default unknown: Binary records carry "binary", Source records
their language, and Error records have no language field, so the
default applies. -/
def recLangTag : FileRecord → String
  | .binary _ _ => "binary"
  | .source _ lang _ _ _ _ _ _ => lang
  | .err _ _ => "unknown"

/-- A file as presented to analyze_file: its name, the outcome of
reading its raw bytes (shared by the binary probe and the text read,
whose decode with errors ignore is total), and the outcome of
stat().st_size. -/
structure FileInput where
  name : String
  bytes : Except String (List Nat)
  statSize : Except String Nat

/-- The body of the try block of analyze_file: any step that python
could raise in surfaces as an Except error. -/
def analyzeFileBody (f : FileInput) : Except String FileRecord :=
  if is_binary_file f.bytes then
    match f.statSize with
    | .error e => .error e
    | .ok sz => .ok (.binary f.name sz)
  else
    match f.bytes with
    | .error e => .error e
    | .ok bs =>
      let content := decodeUtf8Ignore bs
      let language := get_file_language f.name
      let lines := (pySplitlines content).length
      match f.statSize with
      | .error e => .error e
      | .ok sz =>
        let (functions, classes, imports) :=
          if language = "python" then analyze_python_file content
          else if language = "javascript" ∨ language = "typescript" then
            analyze_js_file content
          else if language = "java" then analyze_java_file content
          else ([], [], [])
        .ok (.source f.name language lines sz functions classes imports
          (extract_description content language))

/-- Models CodeAnalyzer.analyze_file: the try body wrapped by the
catch-all except clause that degrades any fault to an Error record
carrying the file name and the fault text. -/
def analyze_file (f : FileInput) : FileRecord :=
  match analyzeFileBody f with
  | .ok r => r
  | .error e => .err f.name e

theorem recName_analyze_file (f : FileInput) :
    recName (analyze_file f) = f.name := by
  unfold analyze_file analyzeFileBody
  by_cases hb : is_binary_file f.bytes = true
  · simp only [hb, if_pos]
    cases f.statSize <;> simp [recName]
  · simp only [Bool.not_eq_true] at hb
    simp only [hb, Bool.false_eq_true, if_false]
    cases f.bytes with
    | error e => simp [recName]
    | ok bs => cases f.statSize <;> simp [recName]

/-! ## Language histogram -/

/-- One tally step of count_languages: python dict assignment keeps
the position of an existing key and appends a new key at the end. -/
def bump (lang : String) : List (String × Nat) → List (String × Nat)
  | [] => [(lang, 1)]
  | (l, n) :: rest =>
    if l = lang then (l, n + 1) :: rest else (l, n) :: bump lang rest

/-- The insertion-ordered language tally of a record list (the dict
lang_count before sorting): keys appear in first-encountered order. -/
def langTally (files : List FileRecord) : List (String × Nat) :=
  files.foldl (fun acc f => bump (recLangTag f) acc) []

/-- Comparison used by sorted(..., key=count, reverse=True). -/
def langLe (a b : String × Nat) : Bool := decide (b.2 ≤ a.2)

/-- Models CodeAnalyzer.count_languages. -/
def count_languages (files : List FileRecord) : List (String × Nat) :=
  pySortedBy langLe (langTally files)

/-! ## Directory analyzer -/

/-- A directory as the filesystem presents it to the walker: either
inaccessible (missing, or iterdir raises PermissionError) or a list
of immediate subdirectories (each a handle carrying its own subtree,
as a pathlib Path does) and immediate files. -/
inductive DirTree where
  | missing
  | denied
  | ok (subdirs : List (String × DirTree)) (files : List FileInput)

/-- The snapshot dict built by analyze_directory on success. -/
structure DirectorySnapshot where
  name : String
  path : String
  directories : List (String × DirTree)
  files : List FileRecord
  total_files : Nat
  total_dirs : Nat
  languages : List (String × Nat)

/-- Result of analyze_directory: the error dict or a snapshot. -/
inductive DirResult where
  | err (msg : String)
  | ok (snap : DirectorySnapshot)

/-- Comparison of subdirectory handles by lowercased name. -/
def dirLe (a b : String × DirTree) : Bool :=
  decide (strLower a.1 ≤ strLower b.1)

/-- Comparison of file records by lowercased name. -/
def fileLe (a b : FileRecord) : Bool :=
  decide (strLower (recName a) ≤ strLower (recName b))

/-- Models CodeAnalyzer.analyze_directory: reject a missing or
permission-denied directory with the corresponding error message;
otherwise skip hidden entries, analyze each file, and return the
snapshot with both lists sorted case-insensitively and the stats
computed from the unsorted scan lists. -/
def analyze_directory (name path : String) (t : DirTree) : DirResult :=
  match t with
  | .missing => .err ("Directory " ++ path ++ " does not exist")
  | .denied => .err ("Permission denied accessing " ++ path)
  | .ok subdirs files =>
    let dirs := subdirs.filter (fun d => !(strStartsWith d.1 "."))
    let fs := (files.filter (fun f => !(strStartsWith f.name "."))).map analyze_file
    .ok
      { name := name
        path := path
        directories := pySortedBy dirLe dirs
        files := pySortedBy fileLe fs
        total_files := fs.length
        total_dirs := dirs.length
        languages := count_languages fs }

/-- The directory list the walker recurses over, as read by
analysis.get with default empty list. -/
def dirsOf : DirResult → List (String × DirTree)
  | .err _ => []
  | .ok s => s.directories

/-! ## Document renderer -/

/-- Source-record test used to group the file summaries. -/
def isSourceRec : FileRecord → Bool
  | .source _ _ _ _ _ _ _ _ => true
  | _ => false

/-- Backtick-comma join used for the extracted name lists. -/
def joinTicks (l : List String) : String := String.intercalate "`, `" l

/-- Models CodeAnalyzer.format_file_summary.  It is only applied to
source records; on the other variants (never reached by the
renderer) it yields the empty string. -/
def format_file_summary (r : FileRecord) : String :=
  match r with
  | .source name language lines _ functions classes imports desc =>
    "##### " ++ name ++ "\n\n**语言:** " ++ language ++ "  \n**行数:** " ++
      toString lines ++ "  \n**描述:** " ++ desc ++ "\n\n" ++
    (if functions.isEmpty then "" else
      "**主要函数:** `" ++ joinTicks (functions.take 5) ++ "`\n\n") ++
    (if classes.isEmpty then "" else
      "**主要类:** `" ++ joinTicks (classes.take 5) ++ "`\n\n") ++
    (if imports.isEmpty then "" else
      "**依赖项:** `" ++ joinTicks (imports.take 3) ++ "`\n\n")
  | _ => ""

/-- Models CodeAnalyzer.generate_readme_content; the generation
timestamp string (datetime.now formatted) is passed in as ts. -/
def generate_readme_content (ts : String) (a : DirResult) : String :=
  match a with
  | .err msg => "# 错误\n\n无法分析此目录: " ++ msg
  | .ok s =>
    "# " ++ s.name ++ "\n\n## 模块概述\n\n此模块包含 " ++
      toString s.total_files ++ " 个文件和 " ++ toString s.total_dirs ++
      " 个子目录。\n\n**目录路径:** `" ++ s.path ++ "`\n**生成时间:** " ++
      ts ++ "\n\n**主要编程语言:**\n" ++
    String.join ((s.languages.take 5).map
      (fun p => "- " ++ p.1 ++ ": " ++ toString p.2 ++ " 个文件\n")) ++
    "\n## 模块讲解\n\n" ++
    (if s.directories.isEmpty then "" else
      "### 子目录\n\n" ++
      String.join (s.directories.map
        (fun d => "- **" ++ d.1 ++ "/** - 包含相关模块和文件\n")) ++ "\n") ++
    (if s.files.isEmpty then "" else
      "### 文件摘要\n\n" ++
      (if (s.files.filter isSourceRec).isEmpty then "" else
        "#### 源代码文件\n\n" ++
        String.join ((s.files.filter isSourceRec).map format_file_summary)) ++
      (if (s.files.filter (fun r => !isSourceRec r)).isEmpty then "" else
        "#### 其他文件\n\n" ++
        String.join ((s.files.filter (fun r => !isSourceRec r)).map
          (fun r => "- **" ++ recName r ++ "** (" ++ recType r ++ ")\n")))) ++
    "\n---\n*此文档由代码理解工具自动生成*"

/-! ## Tree walker -/

/-- One reported visit of process_directory: the relative path of the
directory and the rendered document content. -/
structure Visit where
  rel : String
  content : String

/-- Relative path accumulation of the recursion (root has the empty
relative path). -/
def childRel (rel name : String) : String :=
  if rel = "" then name else rel ++ "/" ++ name

theorem mem_dirsOf_sizeOf {n p : String} {t : DirTree}
    {pr : String × DirTree}
    (h : pr ∈ dirsOf (analyze_directory n p t)) :
    sizeOf pr.2 < sizeOf t := by
  cases t with
  | missing => simp [analyze_directory, dirsOf] at h
  | denied => simp [analyze_directory, dirsOf] at h
  | ok subdirs files =>
    simp only [analyze_directory, dirsOf] at h
    have h1 : pr ∈ subdirs.filter (fun d => !(strStartsWith d.1 ".")) :=
      ((pySortedBy_perm _ _).mem_iff).mp h
    have h2 : pr ∈ subdirs := List.mem_of_mem_filter h1
    have h3 : sizeOf pr < sizeOf subdirs := List.sizeOf_lt_of_mem h2
    obtain ⟨nm, sub⟩ := pr
    simp only [Prod.mk.sizeOf_spec] at h3
    simp only [DirTree.ok.sizeOf_spec]
    omega

/-- Models the recursive process_directory of
generate_hierarchical_readmes, observed through its visits: analyze
the directory, render the document with this visit's timestamp, then
recurse into the collected subdirectory handles in their sorted
order.  An error analysis yields an empty directory list, so no
recursion happens below such a node. -/
def walk (t : DirTree) (name rel : String) (ts : String → String) :
    List Visit :=
  ⟨rel, generate_readme_content (ts rel) (analyze_directory name rel t)⟩ ::
    (dirsOf (analyze_directory name rel t)).attach.flatMap
      (fun pr => walk pr.1.2 pr.1.1 (childRel rel pr.1.1) ts)
termination_by sizeOf t
decreasing_by
  exact mem_dirsOf_sizeOf pr.2

/-! ## Filesystem write phase -/

/-- A flat model of the filesystem visible to the writer: a map from
path strings to file contents. -/
def FS : Type := String → Option String

/-- The two filesystem operations the writer performs. -/
inductive FsOp where
  | rename (src dst : String)
  | write (path content : String)

/-- Effect of one operation on the filesystem. -/
def applyOp (fs : FS) : FsOp → FS
  | .rename src dst =>
    fun p => if p = dst then fs src else if p = src then none else fs p
  | .write path c => fun p => if p = path then some c else fs p

/-- Effect of an operation sequence, first to last. -/
def applyOps (fs : FS) : List FsOp → FS
  | [] => fs
  | op :: rest => applyOps (applyOp fs op) rest

/-- The operations process_directory performs on one directory in a
non-preview run: if a README.md already exists, rename it to the
with_suffix backup path (stem plus .md.backup), then write the newly
rendered document. -/
def writeVisitOps (fs : FS) (dirPath content : String) : List FsOp :=
  let readme_path := dirPath ++ "/" ++ "README.md"
  let backup_path := dirPath ++ "/" ++ (pyStem "README.md" ++ ".md.backup")
  (if (fs readme_path).isSome then [FsOp.rename readme_path backup_path]
   else []) ++ [FsOp.write readme_path content]

/-! ## Timestamp format -/

/-- Two-digit zero padding of strftime. -/
def pad2 (n : Nat) : String := if n < 10 then "0" ++ toString n else toString n

/-- Models strftime of the fixed format string used by the renderer
(year-month-day hour:minute:second); the four-digit year is rendered
as two two-digit groups, which agrees with zero-padded rendering for
every year below 10000. -/
def pyFormatTs (y mo d h mi s : Nat) : String :=
  pad2 (y / 100) ++ pad2 (y % 100) ++ "-" ++ pad2 mo ++ "-" ++ pad2 d ++
    " " ++ pad2 h ++ ":" ++ pad2 mi ++ ":" ++ pad2 s

theorem pad2_length {n : Nat} (h : n < 100) : (pad2 n).length = 2 := by
  interval_cases n <;> rfl

/-- The formatted timestamp always has nineteen characters, which is
why rendered document lengths do not depend on the generation
time. -/
theorem pyFormatTs_length {y mo d h mi s : Nat} (hy : y < 10000)
    (hmo : mo < 100) (hd : d < 100) (hh : h < 100) (hmi : mi < 100)
    (hs : s < 100) :
    (pyFormatTs y mo d h mi s).length = 19 := by
  have h1 : y / 100 < 100 := by omega
  have h2 : y % 100 < 100 := Nat.mod_lt _ (by omega)
  simp [pyFormatTs, String.length_append, pad2_length, h1, h2, hmo, hd, hh,
    hmi, hs]
  rfl

/-! ## Shared lemmas for the claims -/

/-- Total of a language histogram. -/
def sumCounts (l : List (String × Nat)) : Nat := (l.map (fun p => p.2)).sum

theorem sumCounts_bump (lang : String) (acc : List (String × Nat)) :
    sumCounts (bump lang acc) = sumCounts acc + 1 := by
  induction acc with
  | nil => rfl
  | cons hd tl ih =>
    obtain ⟨l, n⟩ := hd
    by_cases h : l = lang
    · simp [bump, h, sumCounts]
      omega
    · simp [bump, h, sumCounts] at ih ⊢
      omega

theorem sumCounts_langTally (files : List FileRecord) :
    sumCounts (langTally files) = files.length := by
  have main : ∀ (fs : List FileRecord) (acc : List (String × Nat)),
      sumCounts (fs.foldl (fun acc f => bump (recLangTag f) acc) acc) =
        sumCounts acc + fs.length := by
    intro fs
    induction fs with
    | nil => intro acc; simp
    | cons f fs ih =>
      intro acc
      rw [List.foldl_cons, ih, sumCounts_bump]
      simp
      omega
  simpa [langTally, sumCounts] using main files []

theorem sumCounts_perm {l1 l2 : List (String × Nat)} (h : l1.Perm l2) :
    sumCounts l1 = sumCounts l2 := by
  simpa [sumCounts] using (h.map (fun p => p.2)).sum_eq

theorem sumCounts_count_languages (files : List FileRecord) :
    sumCounts (count_languages files) = files.length := by
  unfold count_languages
  rw [sumCounts_perm (pySortedBy_perm langLe (langTally files))]
  exact sumCounts_langTally files

/-! ## Claims -/

/-- C1.  For every file path and any file content, including byte
sequences that are invalid in the text encoding (the decode is the
total function decodeUtf8Ignore, so it cannot fault), analyze_file
returns exactly one record — it is a total function into FileRecord —
whose name field is the file name; and whenever the try body faults
(analyzeFileBody returns an error), the fault is not propagated:
analyze_file returns the Error record carrying the file name and the
fault text. -/
theorem analyze_file_never_raises (f : FileInput) :
    recName (analyze_file f) = f.name ∧
    ∀ e, analyzeFileBody f = Except.error e →
      analyze_file f = FileRecord.err f.name e := by
  refine ⟨recName_analyze_file f, ?_⟩
  intro e he
  unfold analyze_file
  rw [he]

/-- Witness for C1: a file whose stat faults while the binary probe
succeeds yields exactly the Error record with the fault text. -/
theorem analyze_file_never_raises_witness :
    analyze_file ⟨"a.txt", Except.ok [0], Except.error "boom"⟩ =
      FileRecord.err "a.txt" "boom" :=
  (analyze_file_never_raises ⟨"a.txt", Except.ok [0], Except.error "boom"⟩).2
    "boom" rfl

/-- C5.  The binary detector inspects only the first 1024 bytes: it
returns true exactly when the read failed or a zero byte occurs in
that prefix.  In particular it returns false for every file, of any
size, whose first 1024 bytes are free of zero bytes, and it returns
true rather than an exception on any read failure. -/
theorem is_binary_file_iff (r : Except String (List Nat)) :
    is_binary_file r = true ↔
      (∃ e, r = Except.error e) ∨
      (∃ bs, r = Except.ok bs ∧ 0 ∈ bs.take 1024) := by
  cases r with
  | error e => simp [is_binary_file]
  | ok bs => simp [is_binary_file]

/-- C9.  Every file record contributes exactly one count to the
language histogram: an Error record (which carries no language field)
is tallied under the dict.get default unknown, a Binary record under
binary, and the histogram values sum to the number of records. -/
theorem histogram_counts_every_record (n m bn : String) (sz : Nat)
    (files : List FileRecord) :
    recLangTag (FileRecord.err n m) = "unknown" ∧
    recLangTag (FileRecord.binary bn sz) = "binary" ∧
    sumCounts (count_languages files) = files.length :=
  ⟨rfl, rfl, sumCounts_count_languages files⟩

theorem descLoop_cons_eq (language l : String) (rest : List String) :
    descLoop language (l :: rest) =
      match spec_line_desc l with
      | some d => d
      | none => descLoop language rest := by
  simp only [descLoop, spec_line_desc]
  split <;> rfl

/-- Counterexample to C2 as stated.  First, on a file with no
qualifying line the description is the language label followed by the
fixed Chinese suffix 源代码文件, not the words source file.  Second,
on a docstring line the code removes every quote and whitespace
character anywhere in the line (the re.sub is unanchored), so the
cleaned text is not the line with only leading markers and
surrounding whitespace stripped. -/
theorem extract_description_ctrex :
    extract_description "x" "python" = "python源代码文件" ∧
    ("python源代码文件" : String) ≠ "python source file" ∧
    extract_description "\"\"\"This is a doc string here\"\"\"" "python" =
      "Thisisadocstringhere" ∧
    ("Thisisadocstringhere" : String) ≠ "This is a doc string here" := by
  exact ⟨rfl, by decide, rfl, by decide⟩

/-- C2 (amended).  For every text content and language label, the
description is computed by scanning only the first twenty lines: a
stripped line qualifies through the comment branch (it starts with a
comment marker and the text left after removing the leading run of
marker and whitespace characters, trimmed, has length strictly
between 10 and 200) or else through the docstring branch (it contains
a triple-quote marker and the text left after removing every quote
and whitespace character anywhere in the line has length strictly
between 10 and 200); the first line qualifying in range provides the
description, and if none does, the description is the language label
followed by the fixed suffix 源代码文件.  Stated as: the code
function extract_description agrees everywhere with the
spec-structured definition spec_extract_description. -/
theorem extract_description_matches_amended_spec
    (content language : String) :
    extract_description content language =
      spec_extract_description content language := by
  unfold extract_description spec_extract_description
  generalize (pySplitlines content).take 20 = lines
  induction lines with
  | nil => rfl
  | cons l rest ih =>
    rw [descLoop_cons_eq, List.findSome?_cons]
    cases h : spec_line_desc l with
    | some d => rfl
    | none => exact ih

theorem pySuffix_append_four (pre : String) (c1 c2 c3 : Char)
    (h : pre ≠ "") (h1 : c1 ≠ '.') (h2 : c2 ≠ '.') (h3 : c3 ≠ '.') :
    pySuffix (pre ++ String.mk ['.', c1, c2, c3]) =
      String.mk ['.', c1, c2, c3] := by
  have hpre : pre.data ≠ [] := by
    intro hnil
    apply h
    cases pre with
    | mk l => simp at hnil; simp [hnil]
  have hlen : 0 < pre.data.length := List.length_pos.mpr hpre
  have hfind : List.findIdx? (fun c => c = '.')
      ((pre ++ String.mk ['.', c1, c2, c3]).data.reverse) = some 3 := by
    rw [String.data_append, List.reverse_append,
      show (String.mk ['.', c1, c2, c3]).data = ['.', c1, c2, c3] from rfl,
      show (['.', c1, c2, c3] : List Char).reverse = [c3, c2, c1, '.'] from rfl]
    simp [List.findIdx?, h1, h2, h3]
  simp only [pySuffix, hfind]
  rw [String.data_append,
    show (String.mk ['.', c1, c2, c3]).data = ['.', c1, c2, c3] from rfl]
  simp only [List.length_append, List.length_cons, List.length_nil]
  rw [show pre.data.length + (0 + 1 + 1 + 1 + 1) - 1 - 3 = pre.data.length by
    omega]
  rw [if_pos (by omega)]
  rw [List.drop_left]

theorem get_file_language_jsx (pre : String) (h : pre ≠ "") :
    get_file_language (pre ++ ".jsx") = "react" := by
  unfold get_file_language
  rw [show (".jsx" : String) = String.mk ['.', 'j', 's', 'x'] from rfl,
    pySuffix_append_four pre 'j' 's' 'x' h (by decide) (by decide) (by decide)]
  rfl

theorem get_file_language_tsx (pre : String) (h : pre ≠ "") :
    get_file_language (pre ++ ".tsx") = "react" := by
  unfold get_file_language
  rw [show (".tsx" : String) = String.mk ['.', 't', 's', 'x'] from rfl,
    pySuffix_append_four pre 't' 's' 'x' h (by decide) (by decide) (by decide)]
  rfl

/-- Counterexample to C10 as stated.  The file named exactly .jsx
ends in .jsx and is analyzed as a non-binary file, yet the classifier
labels it unknown, not react, because pathlib gives a dotfile an
empty suffix. -/
theorem react_ctrex :
    (∃ pre, (".jsx" : String) = pre ++ ".jsx") ∧
    is_binary_file (Except.ok [104]) = false ∧
    get_file_language ".jsx" = "unknown" ∧
    ("unknown" : String) ≠ "react" ∧
    analyze_file ⟨".jsx", Except.ok [104], Except.ok 7⟩ =
      FileRecord.source ".jsx" "unknown" 1 7 [] [] [] "unknown源代码文件" :=
  ⟨⟨"", by decide⟩, rfl, rfl, by decide, rfl⟩

/-- C10 (amended).  For every non-binary file whose name ends in
.jsx or .tsx with a nonempty stem (the name is longer than the
four-character extension, excluding the dotfiles named exactly .jsx
or .tsx) and whose stat succeeds, the classifier assigns the label
react, and because structural extraction is dispatched only for
python, javascript, typescript and java, the resulting record has
empty functions, classes and imports lists. -/
theorem react_files_no_extraction (f : FileInput) (pre : String)
    (bs : List Nat) (sz : Nat) (hpre : pre ≠ "")
    (hname : f.name = pre ++ ".jsx" ∨ f.name = pre ++ ".tsx")
    (hnb : is_binary_file f.bytes = false)
    (hbytes : f.bytes = Except.ok bs)
    (hstat : f.statSize = Except.ok sz) :
    get_file_language f.name = "react" ∧
    analyze_file f = FileRecord.source f.name "react"
      (pySplitlines (decodeUtf8Ignore bs)).length sz [] [] []
      (extract_description (decodeUtf8Ignore bs) "react") := by
  have hlang : get_file_language f.name = "react" := by
    rcases hname with h | h <;> rw [h]
    · exact get_file_language_jsx pre hpre
    · exact get_file_language_tsx pre hpre
  refine ⟨hlang, ?_⟩
  unfold analyze_file analyzeFileBody
  rw [hbytes] at hnb
  simp only [hbytes, hstat, hnb, Bool.false_eq_true, if_false, hlang]
  rw [if_neg (by decide : ¬ ("react" : String) = "python"),
    if_neg (by decide :
      ¬ (("react" : String) = "javascript" ∨ ("react" : String) = "typescript")),
    if_neg (by decide : ¬ ("react" : String) = "java")]

/-- Witness for C10: the concrete file App.jsx with one readable byte
classifies as react and yields a source record with empty extraction
lists. -/
theorem react_files_no_extraction_witness :
    get_file_language "App.jsx" = "react" ∧
    analyze_file ⟨"App.jsx", Except.ok [104], Except.ok 1⟩ =
      FileRecord.source "App.jsx" "react"
        (pySplitlines (decodeUtf8Ignore [104])).length 1 [] [] []
        (extract_description (decodeUtf8Ignore [104]) "react") := by
  have h := react_files_no_extraction
    ⟨"App.jsx", Except.ok [104], Except.ok 1⟩ "App" [104] 1 (by decide)
    (Or.inl (by decide)) (by decide) rfl rfl
  simpa using h

/-- C4.  For every directory visited in a non-preview run whose
README.md path already holds a document, the visit first renames the
old document to the backup path (the name with the added backup
suffix) and only then writes the new document; afterwards the
original content sits unchanged at the backup path and the newly
rendered content at the original path. -/
theorem backup_then_write (fs : FS) (dirPath content old : String)
    (h : fs (dirPath ++ "/" ++ "README.md") = some old) :
    writeVisitOps fs dirPath content =
      [FsOp.rename (dirPath ++ "/" ++ "README.md")
        (dirPath ++ "/" ++ "README.md.backup"),
       FsOp.write (dirPath ++ "/" ++ "README.md") content] ∧
    applyOps fs (writeVisitOps fs dirPath content)
      (dirPath ++ "/" ++ "README.md.backup") = some old ∧
    applyOps fs (writeVisitOps fs dirPath content)
      (dirPath ++ "/" ++ "README.md") = some content := by
  have hb : pyStem "README.md" ++ ".md.backup" = "README.md.backup" := by
    decide
  have hops : writeVisitOps fs dirPath content =
      [FsOp.rename (dirPath ++ "/" ++ "README.md")
        (dirPath ++ "/" ++ "README.md.backup"),
       FsOp.write (dirPath ++ "/" ++ "README.md") content] := by
    simp only [writeVisitOps, hb, h, Option.isSome_some, if_true,
      List.cons_append, List.nil_append]
  have hne : dirPath ++ "/" ++ "README.md.backup" ≠
      dirPath ++ "/" ++ "README.md" := by
    intro he
    have hlen := congrArg String.length he
    have l1 : ("README.md.backup" : String).length = 16 := rfl
    have l2 : ("README.md" : String).length = 9 := rfl
    simp only [String.length_append, l1, l2] at hlen
    omega
  refine ⟨hops, ?_, ?_⟩
  · rw [hops]
    simp [applyOps, applyOp, hne, h]
  · rw [hops]
    simp [applyOps, applyOp]

/-- Witness for C4 at a concrete filesystem holding an old document:
after the visit the old content is at the backup path and the new
content at the README path. -/
theorem backup_then_write_witness :
    applyOps (fun p => if p = "d" ++ "/" ++ "README.md"
        then some "OLD" else none)
      (writeVisitOps (fun p => if p = "d" ++ "/" ++ "README.md"
        then some "OLD" else none) "d" "NEW")
      ("d" ++ "/" ++ "README.md.backup") = some "OLD" ∧
    applyOps (fun p => if p = "d" ++ "/" ++ "README.md"
        then some "OLD" else none)
      (writeVisitOps (fun p => if p = "d" ++ "/" ++ "README.md"
        then some "OLD" else none) "d" "NEW")
      ("d" ++ "/" ++ "README.md") = some "NEW" := by
  have h := backup_then_write
    (fun p => if p = "d" ++ "/" ++ "README.md" then some "OLD" else none)
    "d" "NEW" "OLD" (by decide)
  exact ⟨h.2.1, h.2.2⟩

/-- C6.  Every successfully analyzed directory snapshot excludes the
dot-prefixed entries from both lists, its stats equal the lengths of
the emitted lists, and the histogram values sum to the file count. -/
theorem analyze_directory_stats (n p : String)
    (subdirs : List (String × DirTree)) (files : List FileInput) :
    ∃ s, analyze_directory n p (DirTree.ok subdirs files) = DirResult.ok s ∧
      (∀ d ∈ s.directories, strStartsWith d.1 "." = false) ∧
      (∀ r ∈ s.files, strStartsWith (recName r) "." = false) ∧
      s.total_files = s.files.length ∧
      s.total_dirs = s.directories.length ∧
      sumCounts s.languages = s.total_files := by
  refine ⟨_, rfl, ?_, ?_, ?_, ?_, ?_⟩
  · intro d hd
    have h1 := (pySortedBy_perm dirLe _).mem_iff.mp hd
    have h2 := List.of_mem_filter h1
    simpa using h2
  · intro r hr
    have h1 := (pySortedBy_perm fileLe _).mem_iff.mp hr
    rcases List.mem_map.mp h1 with ⟨f, hf, rfl⟩
    have h2 := List.of_mem_filter hf
    rw [recName_analyze_file]
    simpa using h2
  · exact ((pySortedBy_perm fileLe _).length_eq).symm
  · exact ((pySortedBy_perm dirLe _).length_eq).symm
  · exact sumCounts_count_languages _

/-- C7.  In every successfully analyzed directory snapshot the
subdirectory and file lists are sorted case-insensitively by name,
the histogram is sorted by descending count, and entries with equal
counts keep the first-encountered order of the file scan (the
insertion order of the tally dict). -/
theorem analyze_directory_sorted (n p : String)
    (subdirs : List (String × DirTree)) (files : List FileInput) :
    ∃ s, analyze_directory n p (DirTree.ok subdirs files) = DirResult.ok s ∧
      s.directories.Pairwise (fun a b => strLower a.1 ≤ strLower b.1) ∧
      s.files.Pairwise
        (fun a b => strLower (recName a) ≤ strLower (recName b)) ∧
      s.languages.Pairwise (fun a b => b.2 ≤ a.2) ∧
      ∀ k, s.languages.filter (fun pr => pr.2 == k) =
        (langTally ((files.filter
          (fun f => !(strStartsWith f.name "."))).map analyze_file)).filter
          (fun pr => pr.2 == k) := by
  refine ⟨_, rfl, ?_, ?_, ?_, ?_⟩
  · have hp := @pySortedBy_pairwise _ dirLe
      (fun a b => by
        simp only [dirLe, decide_eq_true_eq]
        exact le_total _ _)
      (fun a b c h1 h2 => by
        simp only [dirLe, decide_eq_true_eq] at h1 h2 ⊢
        exact le_trans h1 h2)
      (subdirs.filter (fun d => !(strStartsWith d.1 ".")))
    exact hp.imp (fun hab => by
      simpa only [dirLe, decide_eq_true_eq] using hab)
  · have hp := @pySortedBy_pairwise _ fileLe
      (fun a b => by
        simp only [fileLe, decide_eq_true_eq]
        exact le_total _ _)
      (fun a b c h1 h2 => by
        simp only [fileLe, decide_eq_true_eq] at h1 h2 ⊢
        exact le_trans h1 h2)
      ((files.filter (fun f => !(strStartsWith f.name "."))).map analyze_file)
    exact hp.imp (fun hab => by
      simpa only [fileLe, decide_eq_true_eq] using hab)
  · have hp := @pySortedBy_pairwise _ langLe
      (fun a b => by
        simp only [langLe, decide_eq_true_eq]
        exact (le_total _ _).symm
        )
      (fun a b c h1 h2 => by
        simp only [langLe, decide_eq_true_eq] at h1 h2 ⊢
        exact le_trans h2 h1)
      (langTally ((files.filter
        (fun f => !(strStartsWith f.name "."))).map analyze_file))
    exact hp.imp (fun hab => by
      simpa only [langLe, decide_eq_true_eq] using hab)
  · intro k
    exact filter_pySortedBy
      (fun a b => by
        simp only [langLe, decide_eq_true_eq]
        exact (le_total _ _).symm)
      (fun a b c h1 h2 => by
        simp only [langLe, decide_eq_true_eq] at h1 h2 ⊢
        exact le_trans h2 h1)
      (fun x y hp hle => by
        simp only [langLe, decide_eq_false_iff_not] at hle
        simp only [beq_iff_eq] at hp
        simp only [beq_eq_false_iff_ne]
        omega)
      _

/-- C3.  When the directory analyzer fails — the directory is missing
or listing it is denied — it returns the error result rather than a
snapshot, the renderer produces the minimal error document for it,
and the walker emits exactly that one visit and recurses into no
children of the node. -/
theorem directory_error_short_circuits (n p rel m : String)
    (ts : String → String) :
    analyze_directory n p DirTree.missing =
      DirResult.err ("Directory " ++ p ++ " does not exist") ∧
    analyze_directory n p DirTree.denied =
      DirResult.err ("Permission denied accessing " ++ p) ∧
    generate_readme_content (ts rel) (DirResult.err m) =
      "# 错误\n\n无法分析此目录: " ++ m ∧
    walk DirTree.missing n rel ts =
      [⟨rel, "# 错误\n\n无法分析此目录: " ++
        ("Directory " ++ rel ++ " does not exist")⟩] ∧
    walk DirTree.denied n rel ts =
      [⟨rel, "# 错误\n\n无法分析此目录: " ++
        ("Permission denied accessing " ++ rel)⟩] := by
  refine ⟨rfl, rfl, rfl, ?_, ?_⟩
  · rw [walk]
    simp [analyze_directory, dirsOf, generate_readme_content]
  · rw [walk]
    simp [analyze_directory, dirsOf, generate_readme_content]

/-- The per-visit preview report: relative path and the reported
content length of the rendered document. -/
def visitLens (vs : List Visit) : List (String × Nat) :=
  vs.map (fun v => (v.rel, v.content.length))

theorem gen_len_eq (a : DirResult) {ts1 ts2 : String}
    (h : ts1.length = ts2.length) :
    (generate_readme_content ts1 a).length =
      (generate_readme_content ts2 a).length := by
  cases a with
  | err m => rfl
  | ok s => simp [generate_readme_content, String.length_append, h]

/-- C8.  On an unchanged tree, two preview runs report the same
content length for every visited directory: the reported list of
relative paths and lengths is independent of the per-visit timestamps
as long as the timestamp strings have equal lengths, which the fixed
nineteen-character format guarantees (pyFormatTs_length). -/
theorem preview_lengths_run_independent (t : DirTree) (n rel : String)
    (tsA tsB : String → String)
    (h : ∀ p, (tsA p).length = (tsB p).length) :
    visitLens (walk t n rel tsA) = visitLens (walk t n rel tsB) := by
  have main : ∀ (N : Nat) (t : DirTree), sizeOf t ≤ N → ∀ (n rel : String),
      visitLens (walk t n rel tsA) = visitLens (walk t n rel tsB) := by
    intro N
    induction N with
    | zero =>
      intro t ht
      exfalso
      cases t <;> simp_all
    | succ N ih =>
      intro t ht n rel
      rw [walk, walk]
      simp only [visitLens, List.map_cons]
      have hhead : ((⟨rel, generate_readme_content (tsA rel)
            (analyze_directory n rel t)⟩ : Visit).rel,
          (generate_readme_content (tsA rel)
            (analyze_directory n rel t)).length) =
          (rel, (generate_readme_content (tsB rel)
            (analyze_directory n rel t)).length) := by
        rw [gen_len_eq _ (h rel)]
      have htail : ∀ (L : List {pr // pr ∈ dirsOf (analyze_directory n rel t)}),
          visitLens (L.flatMap
            (fun pr => walk pr.1.2 pr.1.1 (childRel rel pr.1.1) tsA)) =
          visitLens (L.flatMap
            (fun pr => walk pr.1.2 pr.1.1 (childRel rel pr.1.1) tsB)) := by
        intro L
        induction L with
        | nil => rfl
        | cons x xs ihL =>
          have hsz : sizeOf x.1.2 ≤ N := by
            have := mem_dirsOf_sizeOf x.2
            omega
          simp only [List.flatMap_cons, visitLens, List.map_append]
          rw [show (walk x.1.2 x.1.1 (childRel rel x.1.1) tsA).map
                (fun v => (v.rel, v.content.length)) =
              (walk x.1.2 x.1.1 (childRel rel x.1.1) tsB).map
                (fun v => (v.rel, v.content.length)) from
            ih x.1.2 hsz x.1.1 (childRel rel x.1.1)]
          rw [show (xs.flatMap
                (fun pr => walk pr.1.2 pr.1.1 (childRel rel pr.1.1) tsA)).map
                (fun v => (v.rel, v.content.length)) =
              (xs.flatMap
                (fun pr => walk pr.1.2 pr.1.1 (childRel rel pr.1.1) tsB)).map
                (fun v => (v.rel, v.content.length)) from ihL]
      simp only [visitLens] at htail
      rw [htail]
      simp only [hhead]
  exact main (sizeOf t) t (le_refl _) n rel

/-- Witness for C8: a two-level tree previewed with two different
formatted generation times reports identical path and length
lists. -/
theorem preview_lengths_run_independent_witness :
    visitLens (walk (DirTree.ok
        [("lib", DirTree.ok [] [⟨"util.py", Except.ok [100], Except.ok 3⟩])]
        [⟨"README.md", Except.ok [35], Except.ok 1⟩]) "root" ""
      (fun _ => pyFormatTs 2025 1 2 3 4 5)) =
    visitLens (walk (DirTree.ok
        [("lib", DirTree.ok [] [⟨"util.py", Except.ok [100], Except.ok 3⟩])]
        [⟨"README.md", Except.ok [35], Except.ok 1⟩]) "root" ""
      (fun _ => pyFormatTs 2026 11 12 13 14 15)) :=
  preview_lengths_run_independent _ "root" ""
    (fun _ => pyFormatTs 2025 1 2 3 4 5)
    (fun _ => pyFormatTs 2026 11 12 13 14 15)
    (fun _ => rfl)

end CodeAnalyzer
